import Mathlib

/-!
# Verification of the salesforce-deployment-guard conflict engine

Shallow embedding of `src/extension.ts` (conflict detection, artifact
resolution, session cache, watermark store, diff/resolution engine) and
proofs of the specification claims about it.

Conventions of the embedding:
* JavaScript `Date` values are modelled as `Nat` milliseconds since the Unix
  epoch (the actual precision of a JS `Date`); an invalid date is `Option.none`
  where it can arise.
* Effectful collaborators (CLI identity lookup, Salesforce queries, the
  VS Code workspace state, the file system, user dialog choices) are passed
  as explicit oracle arguments describing the outcome the collaborator
  produced; a thrown exception is an `Except.error`.
* `String.prototype.toLowerCase` is modelled by ASCII case folding
  (`Char.toLower`), which agrees with JS on the ASCII range.
* Node's `path` helpers are modelled treating both `/` and `\` as
  separators (the source itself splits on the regex `[/\\]`).
-/

/-! ## JS string primitives -/

/-- `String.prototype.toLowerCase`, ASCII case folding. -/
def lowerStr (s : String) : String := ⟨s.data.map Char.toLower⟩

/-- Is `pat` a contiguous sub-list of `hay`?  Models `String.prototype.includes`
on the underlying character lists (returns `true` for an empty pattern). -/
def listContains (hay pat : List Char) : Bool :=
  match hay with
  | [] => pat.isEmpty
  | _ :: t => pat.isPrefixOf hay || listContains t pat

/-- `hay.includes(pat)` on strings. -/
def strIncludes (hay pat : String) : Bool := listContains hay.data pat.data

/-- JavaScript `x || dflt` on an optional string field: `none` and the empty
string are falsy and select the default. -/
def jsOrElse (x : Option String) (dflt : String) : String :=
  match x with
  | none => dflt
  | some s => if s = "" then dflt else s

/-! ## Node `path` primitives -/

/-- A path separator; the source splits on the regex `[/\\]`. -/
def isSep (c : Char) : Bool := c = '/' || c = '\\'

/-- Prepend a character to the first segment of a split result. -/
def consHead (c : Char) : List (List Char) → List (List Char)
  | [] => [[c]]
  | s :: rest => (c :: s) :: rest

/-- `filePath.split(/[/\\]/)` on the character list: every separator starts a
new (possibly empty) segment.  The result is always nonempty. -/
def splitSegs : List Char → List (List Char)
  | [] => [[]]
  | c :: t => if isSep c then [] :: splitSegs t else consHead c (splitSegs t)

/-- `filePath.split(/[/\\]/)` as strings. -/
def splitPath (p : String) : List String := (splitSegs p.data).map fun l => ⟨l⟩

/-- The characters of `path.basename(p)`: trailing separators dropped, then
the portion after the last separator. -/
def basenameChars (l : List Char) : List Char :=
  ((l.reverse.dropWhile isSep).takeWhile (fun c => !isSep c)).reverse

/-- `path.extname(p)`: from the last `.` of the basename to its end; empty
when there is no dot, when the only dot leads the basename, or for `..`. -/
def extname (p : String) : String :=
  let b := basenameChars p.data
  if b = ['.', '.'] then ""
  else
    let after := (b.reverse.takeWhile (fun c => c ≠ '.')).reverse
    if after.length + 1 < b.length then ⟨'.' :: after⟩ else ""

/-- `path.basename(p, ext)`: the basename with the suffix `ext` removed when
the basename ends in `ext` and is strictly longer than it. -/
def basenameStrip (p : String) (ext : String) : String :=
  let b := basenameChars p.data
  if ext.data ≠ [] ∧ ext.data.length < b.length ∧ ext.data.isSuffixOf b then
    ⟨b.take (b.length - ext.data.length)⟩
  else ⟨b⟩

/-! ## Artifact Resolver (`getMetadataInfo`, `isSalesforceFile`) -/

/-- The `{type, name}` record returned by `getMetadataInfo`. -/
structure MetadataInfo where
  type : String
  name : String
deriving DecidableEq, Repr

/-- `getMetadataInfo` from `src/extension.ts`: resolves a local file path to a
metadata type tag and logical name.  `List.findIdx` returns the list length
when no element matches, so the guard `lwcIndex + 1 < pathParts.length` is
exactly the source's `lwcIndex !== -1 && lwcIndex < pathParts.length - 1`. -/
def getMetadataInfo (filePath : String) : Option MetadataInfo :=
  let fileExt := lowerStr (extname filePath)
  let fileName := basenameStrip filePath fileExt
  if fileExt = ".cls" then some ⟨"ApexClass", fileName⟩
  else if fileExt = ".trigger" then some ⟨"ApexTrigger", fileName⟩
  else if fileExt = ".apex" then some ⟨"ApexPage", fileName⟩
  else if fileExt = ".html" ∨ fileExt = ".js" ∨ fileExt = ".css" then
    let pathParts := splitPath filePath
    let lwcIndex := pathParts.findIdx (· == "lwc")
    if lwcIndex + 1 < pathParts.length then
      some ⟨"LightningComponentBundle", pathParts.getD (lwcIndex + 1) ""⟩
    else none
  else none

/-! ## Sync Watermark Store -/

/-- The in-memory watermark map `Map<string, Date>`, as an association list
keyed by artifact name, insertion-ordered like a JS `Map`. -/
abbrev RetrieveMap := List (String × Nat)

/-- `Map.prototype.get`. -/
def mapGet (m : RetrieveMap) (k : String) : Option Nat :=
  match m with
  | [] => none
  | (k', v) :: t => if k' = k then some v else mapGet t k

/-- `Map.prototype.set`: replaces in place, else appends. -/
def mapSet (m : RetrieveMap) (k : String) (v : Nat) : RetrieveMap :=
  match m with
  | [] => [(k, v)]
  | (k', v') :: t => if k' = k then (k', v) :: t else (k', v') :: mapSet t k v

/-! ## Conflict Detector (`checkForConflicts`) -/

/-- The record returned by the org query: `LastModifiedDate` (an instant) and
the `LastModifiedBy` relation's `Name` and `Username`, either of which may be
absent. -/
structure OrgRecord where
  lastModifiedDate : Nat
  lastModifiedByName : Option String
  lastModifiedByUsername : Option String
deriving DecidableEq, Repr

/-- The `ConflictInfo` verdict of `src/extension.ts`.  `modifiedDate` keeps the
instant itself rather than its `toLocaleString` rendering. -/
structure ConflictInfo where
  hasConflict : Bool
  modifiedBy : Option String := none
  modifiedDate : Option Nat := none
  reason : Option String := none
deriving DecidableEq, Repr

/-- The no-conflict verdict produced by every fail-open path. -/
def noConflict : ConflictInfo := { hasConflict := false }

/-- The identity-fallback test of `checkForConflicts` (no-watermark mode):
the remote `Username` equals the acting user's login case-insensitively, or
the remote display `Name` contains the acting login, or the acting login
contains the remote `Username` (all case-insensitively). -/
def isCurrentUserMatch (currentUser modifiedByName modifiedByUsername : String) : Bool :=
  lowerStr modifiedByUsername == lowerStr currentUser ||
    strIncludes (lowerStr modifiedByName) (lowerStr currentUser) ||
    strIncludes (lowerStr currentUser) (lowerStr modifiedByUsername)

/-- `checkForConflicts` from `src/extension.ts`.  The effectful steps are
passed as oracles: `workspaceFolder` (the first workspace folder, if any),
`currentUser` (outcome of `getCurrentSalesforceUsername`), `conn` (outcome of
`getSalesforceConnection`, the connection itself being irrelevant here), and
`queryResult` (the org query outcome; `Except.error` models a throw, which the
source's `catch` turns into a fail-open verdict).  `retrieveMap` is the stored
watermark map. -/
def checkForConflicts (workspaceFolder : Option String) (currentUser : Option String)
    (filePath : String) (conn : Option Unit)
    (queryResult : Except String (List OrgRecord))
    (retrieveMap : RetrieveMap) : ConflictInfo :=
  match workspaceFolder with
  | none => noConflict
  | some _ =>
    match currentUser with
    | none => noConflict
    | some currentUser =>
      if currentUser = "" then noConflict
      else
        match getMetadataInfo filePath with
        | none => noConflict
        | some metadataInfo =>
          match conn with
          | none => noConflict
          | some _ =>
            match queryResult with
            | .error _ => noConflict
            | .ok records =>
              match records with
              | [] => noConflict
              | orgRecord :: _ =>
                let modifiedByName := jsOrElse orgRecord.lastModifiedByName "Unknown"
                let modifiedByUsername := jsOrElse orgRecord.lastModifiedByUsername ""
                let orgLastModified := orgRecord.lastModifiedDate
                match mapGet retrieveMap metadataInfo.name with
                | none =>
                  let isCurrentUser :=
                    isCurrentUserMatch currentUser modifiedByName modifiedByUsername
                  let hasConflict := !isCurrentUser
                  { hasConflict := hasConflict
                    modifiedBy := some modifiedByName
                    modifiedDate := some orgLastModified
                    reason := if hasConflict
                      then some "File modified in org after last retrieve" else none }
                | some lastRetrieved =>
                  let hasConflict := decide (lastRetrieved < orgLastModified)
                  { hasConflict := hasConflict
                    modifiedBy := some modifiedByName
                    modifiedDate := some orgLastModified
                    reason := if hasConflict
                      then some "File modified in org after last retrieve" else none }

/-! ## Conflict Detector claims -/

theorem listContains_nil (hay : List Char) : listContains hay [] = true := by
  cases hay <;> simp [listContains, List.isPrefixOf]

/-- C1: for every conflict check on an artifact that has a recorded watermark
`T`, `checkForConflicts` declares a conflict if and only if the remote
record's last-modified instant is strictly later than `T`; in particular with
remote last-modified `≤ T` it returns `hasConflict = false` regardless of the
remote record's modifying user (its `Name`/`Username` fields are arbitrary
here) — timestamp mode supersedes identity matching entirely. -/
theorem timestamp_mode_iff_strictly_later (wf cu filePath : String) (hcu : cu ≠ "")
    (mi : MetadataInfo) (hmi : getMetadataInfo filePath = some mi)
    (r : OrgRecord) (rest : List OrgRecord) (m : RetrieveMap)
    (T : Nat) (hT : mapGet m mi.name = some T) :
    (checkForConflicts (some wf) (some cu) filePath (some ()) (.ok (r :: rest)) m).hasConflict
      = true ↔ T < r.lastModifiedDate := by
  simp [checkForConflicts, hmi, hcu, hT]

/-- Witness for C1 at a concrete input: watermark 100, remote modified at 101
by a different user, conflict declared. -/
theorem timestamp_mode_iff_strictly_later_witness :
    (checkForConflicts (some "w") (some "bob@x.com") "a/Foo.cls" (some ())
        (.ok [⟨101, some "Alice B", some "alice@x.com"⟩]) [("Foo", 100)]).hasConflict = true :=
  (timestamp_mode_iff_strictly_later "w" "bob@x.com" "a/Foo.cls" (by decide)
    ⟨"ApexClass", "Foo"⟩ (by decide) ⟨101, some "Alice B", some "alice@x.com"⟩ [] [("Foo", 100)]
    100 (by decide)).mpr (by decide)

/-- C2: with no recorded watermark, `checkForConflicts` returns
`hasConflict = false` exactly when the remote last-modifying actor matches the
acting user under the source's tolerance rule: the login identifiers are equal
case-insensitively, or the display name contains the acting login, or the
acting login contains the remote login (case-insensitively); otherwise it
returns `hasConflict = true`. -/
theorem identity_fallback_iff_match (wf cu filePath : String) (hcu : cu ≠ "")
    (mi : MetadataInfo) (hmi : getMetadataInfo filePath = some mi)
    (r : OrgRecord) (rest : List OrgRecord) (m : RetrieveMap)
    (hT : mapGet m mi.name = none) :
    (checkForConflicts (some wf) (some cu) filePath (some ()) (.ok (r :: rest)) m).hasConflict
        = false
      ↔ (lowerStr (jsOrElse r.lastModifiedByUsername "") = lowerStr cu
          ∨ strIncludes (lowerStr (jsOrElse r.lastModifiedByName "Unknown")) (lowerStr cu) = true
          ∨ strIncludes (lowerStr cu) (lowerStr (jsOrElse r.lastModifiedByUsername "")) = true) := by
  have hc : (checkForConflicts (some wf) (some cu) filePath (some ())
      (.ok (r :: rest)) m).hasConflict
      = !isCurrentUserMatch cu (jsOrElse r.lastModifiedByName "Unknown")
          (jsOrElse r.lastModifiedByUsername "") := by
    simp [checkForConflicts, hmi, hcu, hT]
  rw [hc]
  simp only [isCurrentUserMatch, Bool.not_eq_false', Bool.or_eq_true, beq_iff_eq, or_assoc]

/-- Witness for C2 at a concrete input: no watermark, remote login equals the
acting login up to case, no conflict. -/
theorem identity_fallback_iff_match_witness :
    (checkForConflicts (some "w") (some "alice@x.com") "a/Foo.cls" (some ())
        (.ok [⟨100, some "Alice B", some "ALICE@X.COM"⟩]) []).hasConflict = false :=
  (identity_fallback_iff_match "w" "alice@x.com" "a/Foo.cls" (by decide)
    ⟨"ApexClass", "Foo"⟩ (by decide) ⟨100, some "Alice B", some "ALICE@X.COM"⟩ [] []
    (by decide)).mpr (Or.inl (by decide))

/-- C3 counterexample: the source uses the single reason string
`"File modified in org after last retrieve"` in both conflict modes.  At a
concrete never-synced conflicting input the reason is not
`"never-synced-identity-mismatch"`, and the stale-watermark mode produces the
very same reason string, contradicting the claim that the two modes never
produce the same reason. -/
theorem reason_tags_counterexample :
    (checkForConflicts (some "w") (some "bob@x.com") "a/Foo.cls" (some ())
        (.ok [⟨100, some "Alice B", some "alice@x.com"⟩]) []).hasConflict = true
    ∧ (checkForConflicts (some "w") (some "bob@x.com") "a/Foo.cls" (some ())
        (.ok [⟨100, some "Alice B", some "alice@x.com"⟩]) []).reason
        ≠ some "never-synced-identity-mismatch"
    ∧ (checkForConflicts (some "w") (some "bob@x.com") "a/Foo.cls" (some ())
        (.ok [⟨100, some "Alice B", some "alice@x.com"⟩]) []).reason
      = (checkForConflicts (some "w") (some "bob@x.com") "a/Foo.cls" (some ())
        (.ok [⟨101, some "Alice B", some "alice@x.com"⟩]) [("Foo", 50)]).reason := by
  decide

/-- C3 amended: whenever `checkForConflicts` reports `hasConflict = true`, the
verdict carries `modifiedBy`, `modifiedDate`, and a reason, but the reason is
the same string `"File modified in org after last retrieve"` in both modes
(never-synced identity mismatch and stale watermark); the two modes are not
distinguished by the reason string. -/
theorem conflict_verdict_fields (wf cu : Option String) (filePath : String)
    (conn : Option Unit) (q : Except String (List OrgRecord)) (m : RetrieveMap)
    (h : (checkForConflicts wf cu filePath conn q m).hasConflict = true) :
    (checkForConflicts wf cu filePath conn q m).modifiedBy.isSome
    ∧ (checkForConflicts wf cu filePath conn q m).modifiedDate.isSome
    ∧ (checkForConflicts wf cu filePath conn q m).reason
        = some "File modified in org after last retrieve" := by
  unfold checkForConflicts at *
  rcases wf with _ | wf
  · exact absurd h (by simp [noConflict])
  rcases cu with _ | cu
  · exact absurd h (by simp [noConflict])
  by_cases hcu : cu = "" <;> simp only [hcu, if_pos, if_neg, if_true, if_false] at *
  · exact absurd h (by simp [noConflict])
  rcases hmi : getMetadataInfo filePath with _ | mi <;> simp only [hmi] at *
  · exact absurd h (by simp [noConflict])
  rcases conn with _ | conn
  · exact absurd h (by simp [noConflict])
  rcases q with e | records
  · exact absurd h (by simp [noConflict])
  rcases records with _ | ⟨r, rest⟩
  · exact absurd h (by simp [noConflict])
  simp only at h ⊢
  rcases hT : mapGet m mi.name with _ | T <;> simp only [hT] at h ⊢ <;>
    simp_all

/-- Witness for C3 amended at a concrete conflicting input. -/
theorem conflict_verdict_fields_witness :
    (checkForConflicts (some "w") (some "bob@x.com") "a/Foo.cls" (some ())
        (.ok [⟨100, some "Alice B", some "alice@x.com"⟩]) []).reason
      = some "File modified in org after last retrieve" :=
  (conflict_verdict_fields (some "w") (some "bob@x.com") "a/Foo.cls" (some ())
    (.ok [⟨100, some "Alice B", some "alice@x.com"⟩]) [] (by decide)).2.2

/-- C4: every failure of the effectful steps — no workspace folder, an
unresolvable acting user (absent or empty login), no obtainable connection, a
failing/throwing remote query, or an empty query result — is absorbed inside
`checkForConflicts`, which returns the plain `hasConflict = false` verdict;
being a total function of its oracles, no failure escapes as an exception, and
none is reported as a conflict. -/
theorem fail_open_absorbs_failures (wf cu : Option String) (filePath : String)
    (conn : Option Unit) (q : Except String (List OrgRecord)) (m : RetrieveMap)
    (h : wf = none ∨ cu = none ∨ cu = some "" ∨ conn = none
        ∨ (∃ e, q = .error e) ∨ q = .ok []) :
    checkForConflicts wf cu filePath conn q m = noConflict := by
  rcases wf with _ | wf
  · rfl
  rcases cu with _ | cu
  · rfl
  rcases h with h | h | h | h | ⟨e, rfl⟩ | rfl
  · exact absurd h (by simp)
  · exact absurd h (by simp)
  · rw [Option.some_inj] at h
    simp [checkForConflicts, h]
  · subst h
    by_cases hcu : cu = ""
    · simp [checkForConflicts, hcu]
    · simp only [checkForConflicts]
      cases hg : getMetadataInfo filePath <;> simp [hcu]
  · by_cases hcu : cu = ""
    · simp [checkForConflicts, hcu]
    · simp only [checkForConflicts]
      cases hg : getMetadataInfo filePath <;> cases conn <;> simp [hcu]
  · by_cases hcu : cu = ""
    · simp [checkForConflicts, hcu]
    · simp only [checkForConflicts]
      cases hg : getMetadataInfo filePath <;> cases conn <;> simp [hcu]

/-- Witness for C4 at a concrete input: a throwing query yields the
no-conflict verdict. -/
theorem fail_open_absorbs_failures_witness :
    checkForConflicts (some "w") (some "bob@x.com") "a/Foo.cls" (some ())
      (.error "INVALID_SESSION_ID") [] = noConflict :=
  fail_open_absorbs_failures (some "w") (some "bob@x.com") "a/Foo.cls" (some ())
    (.error "INVALID_SESSION_ID") [] (Or.inr (Or.inr (Or.inr (Or.inr
      (Or.inl ⟨"INVALID_SESSION_ID", rfl⟩)))))

/-- C10: when the remote record's `LastModifiedBy.Username` is absent or
empty, the no-watermark identity-fallback mode returns `hasConflict = false`
for every acting user, because the defaulted empty login is a substring of
every string (here: of the acting user's login). -/
theorem empty_remote_login_never_conflicts (wf cu filePath : String) (hcu : cu ≠ "")
    (mi : MetadataInfo) (hmi : getMetadataInfo filePath = some mi)
    (r : OrgRecord) (rest : List OrgRecord) (m : RetrieveMap)
    (hT : mapGet m mi.name = none)
    (hu : r.lastModifiedByUsername = none ∨ r.lastModifiedByUsername = some "") :
    (checkForConflicts (some wf) (some cu) filePath (some ()) (.ok (r :: rest)) m).hasConflict
      = false := by
  have h3 : strIncludes (lowerStr cu) (lowerStr (jsOrElse r.lastModifiedByUsername "")) = true := by
    rcases hu with h | h <;> simp [h, jsOrElse, lowerStr, strIncludes, listContains_nil]
  simp [checkForConflicts, hmi, hcu, hT, isCurrentUserMatch, h3]

/-- Witness for C10 at a concrete input: unknown remote modifier, no
watermark, unrelated acting user, no conflict. -/
theorem empty_remote_login_never_conflicts_witness :
    (checkForConflicts (some "w") (some "bob@x.com") "a/Foo.cls" (some ())
        (.ok [⟨100, some "Alice B", none⟩]) []).hasConflict = false :=
  empty_remote_login_never_conflicts "w" "bob@x.com" "a/Foo.cls" (by decide)
    ⟨"ApexClass", "Foo"⟩ (by decide) ⟨100, some "Alice B", none⟩ [] [] (by decide)
    (Or.inl rfl)

/-! ## Session Cache (`getSalesforceConnection`, `clearConnectionCache`) -/

/-- The module-level mutable cache `cachedConnection` / `connectionExpiry`.
Connection instances are identified by a `Nat` tag, so "identical instance"
is equality of tags. -/
structure ConnCache where
  cachedConnection : Option Nat
  connectionExpiry : Option Nat
deriving DecidableEq, Repr

/-- `clearConnectionCache` from `src/extension.ts`. -/
def clearConnectionCache : ConnCache := ⟨none, none⟩

/-- The rebuild path of `getSalesforceConnection`: identity lookup (`none` or
the empty string is falsy), then `AuthInfo.create`/`Connection.create`
(`Except.error` models a throw caught by the source's `catch`); any failure
runs `clearConnectionCache`, success stores the sole new connection with
expiry 30 minutes from `now`. -/
def freshConnection (now : Nat) (username : Option String)
    (createResult : Except String Nat) : Option Nat × ConnCache :=
  match username with
  | none => (none, clearConnectionCache)
  | some u =>
    if u = "" then (none, clearConnectionCache)
    else
      match createResult with
      | .error _ => (none, clearConnectionCache)
      | .ok c => (some c, ⟨some c, some (now + 30 * 60 * 1000)⟩)

/-- `getSalesforceConnection` from `src/extension.ts`: returns the cached
connection while `now < connectionExpiry`, otherwise rebuilds.  Returns the
connection handed to the caller together with the new cache state. -/
def getSalesforceConnection (st : ConnCache) (now : Nat) (username : Option String)
    (createResult : Except String Nat) : Option Nat × ConnCache :=
  match st.cachedConnection, st.connectionExpiry with
  | some c, some e =>
    if now < e then (some c, st)
    else freshConnection now username createResult
  | some _, none => freshConnection now username createResult
  | none, _ => freshConnection now username createResult

/-- The cache currently holds a connection that has not reached its expiry. -/
def cacheValid (st : ConnCache) (now : Nat) : Prop :=
  ∃ c e, st.cachedConnection = some c ∧ st.connectionExpiry = some e ∧ now < e

/-- C7: the session-cache contract of `getSalesforceConnection`.
1. While a cached connection exists and `now` is before its expiry, the very
   same instance and state are returned, for every outcome of the identity
   lookup and connection construction (so no lookup is performed).
2. Otherwise, on successful lookup and construction, the sole new connection
   is stored with expiry exactly 30 minutes (1800000 ms) from `now`.
3. A returned connection is never past its expiry: the resulting state always
   records it with an expiry strictly after `now`.
4. On any failure during rebuild (no username, empty username, or a throw in
   construction) the cache is cleared entirely. -/
theorem connection_cache_contract :
    (∀ st now c e username createResult, st.cachedConnection = some c →
        st.connectionExpiry = some e → now < e →
        getSalesforceConnection st now username createResult = (some c, st))
    ∧ (∀ st now u c, ¬ cacheValid st now → u ≠ "" →
        getSalesforceConnection st now (some u) (.ok c)
          = (some c, ⟨some c, some (now + 30 * 60 * 1000)⟩))
    ∧ (∀ st now username createResult c,
        (getSalesforceConnection st now username createResult).1 = some c →
        ∃ e, (getSalesforceConnection st now username createResult).2.cachedConnection = some c
          ∧ (getSalesforceConnection st now username createResult).2.connectionExpiry = some e
          ∧ now < e)
    ∧ (∀ st now username createResult, ¬ cacheValid st now →
        (username = none ∨ username = some ""
          ∨ ∃ err, createResult = .error err) →
        getSalesforceConnection st now username createResult = (none, clearConnectionCache)) := by
  refine ⟨?_, ?_, ?_, ?_⟩
  · intro st now c e username createResult hc he hlt
    rcases st with ⟨sc, se⟩
    simp only at hc he
    subst hc; subst he
    simp [getSalesforceConnection, hlt]
  · intro st now u c hinv hu
    have hfresh : freshConnection now (some u) (.ok c)
        = (some c, ⟨some c, some (now + 30 * 60 * 1000)⟩) := by
      simp [freshConnection, hu]
    rcases st with ⟨_ | sc, _ | se⟩ <;>
      simp only [getSalesforceConnection, hfresh]
    rw [if_neg]
    intro hlt
    exact hinv ⟨sc, se, rfl, rfl, hlt⟩
  · intro st now username createResult c hret
    have hfresh : ∀ c, (freshConnection now username createResult).1 = some c →
        ∃ e, (freshConnection now username createResult).2.cachedConnection = some c
          ∧ (freshConnection now username createResult).2.connectionExpiry = some e
          ∧ now < e := by
      intro c hr
      rcases username with _ | u
      · simp [freshConnection] at hr
      by_cases hu : u = ""
      · simp [freshConnection, hu] at hr
      rcases createResult with err | c2
      · simp [freshConnection, hu] at hr
      · simp only [freshConnection, if_neg hu] at hr ⊢
        rw [Option.some_inj] at hr
        exact ⟨now + 30 * 60 * 1000, by simp [hr], rfl, by omega⟩
    rcases st with ⟨_ | sc, _ | se⟩ <;>
      simp only [getSalesforceConnection] at hret ⊢ <;>
      try exact hfresh c hret
    by_cases hlt : now < se
    · rw [if_pos hlt] at hret ⊢
      rw [Option.some_inj] at hret
      exact ⟨se, by simp [hret], rfl, hlt⟩
    · rw [if_neg hlt] at hret ⊢
      exact hfresh c hret
  · intro st now username createResult hinv hfail
    have hfresh : freshConnection now username createResult = (none, clearConnectionCache) := by
      rcases hfail with rfl | rfl | ⟨err, rfl⟩
      · rfl
      · simp [freshConnection]
      · rcases username with _ | u
        · rfl
        by_cases hu : u = "" <;> simp [freshConnection, hu]
    rcases st with ⟨_ | sc, _ | se⟩ <;>
      simp only [getSalesforceConnection, hfresh]
    rw [if_neg]
    intro hlt
    exact hinv ⟨sc, se, rfl, rfl, hlt⟩

/-- Witness for C7 at concrete inputs: a valid cache is reused as-is; an
expired cache rebuilds with a 30-minute expiry; a throwing rebuild clears. -/
theorem connection_cache_contract_witness :
    getSalesforceConnection ⟨some 7, some 100⟩ 99 (some "u") (.ok 8) = (some 7, ⟨some 7, some 100⟩)
    ∧ getSalesforceConnection ⟨some 7, some 100⟩ 100 (some "u") (.ok 8)
        = (some 8, ⟨some 8, some (100 + 30 * 60 * 1000)⟩)
    ∧ getSalesforceConnection ⟨some 7, some 100⟩ 100 (some "u") (.error "boom")
        = (none, clearConnectionCache) :=
  have hinv : ¬ cacheValid ⟨some 7, some 100⟩ 100 := by
    rintro ⟨c, e, hc, he, hlt⟩
    rw [Option.some_inj] at hc he
    omega
  ⟨connection_cache_contract.1 ⟨some 7, some 100⟩ 99 7 100 (some "u") (.ok 8) rfl rfl (by decide),
   connection_cache_contract.2.1 ⟨some 7, some 100⟩ 100 "u" 8 hinv (by decide),
   connection_cache_contract.2.2.2 ⟨some 7, some 100⟩ 100 (some "u") (.error "boom") hinv
     (Or.inr (Or.inr ⟨"boom", rfl⟩))⟩

/-! ## Diff & Resolution Engine (`showDiffAndResolve`, `showLWCDiffAndResolve`) -/

/-- The local file system, path ↦ content. -/
abbrev FileSystem := List (String × String)

/-- `fs.readFileSync` outcome: `none` models a throw (missing file). -/
def fsRead (fs : FileSystem) (p : String) : Option String :=
  match fs with
  | [] => none
  | (p', c) :: t => if p' = p then some c else fsRead t p

/-- `fs.writeFileSync`. -/
def fsWrite (fs : FileSystem) (p c : String) : FileSystem :=
  match fs with
  | [] => [(p, c)]
  | (p', c') :: t => if p' = p then (p', c) :: t else (p', c') :: fsWrite t p c

/-- The enumerated user choice of the resolution dialog; `cancelled` is a
dismissed dialog (`choice === undefined`). -/
inductive Choice where
  | useOrgVersion
  | keepLocal
  | mergeManually
  | cancelled
deriving DecidableEq, Repr

/-- The single-file tail of `showDiffAndResolve` (after the LWC dispatch):
`orgFetch` is the outcome of `retrieveOrgVersion` for the file (`none` =
fetch failed or no remote content), modelled as the fetched content itself
rather than the temp-file path it is spooled through.  Returns
(resolved?, file system, watermark map). -/
def showDiffAndResolveSingle (localFilePath : String) (fs : FileSystem)
    (orgFetch : Option String) (choice : Choice) (now : Nat) (m : RetrieveMap) :
    Bool × FileSystem × RetrieveMap :=
  match orgFetch with
  | none => (false, fs, m)
  | some orgContent =>
    match choice with
    | .useOrgVersion =>
      (true, fsWrite fs localFilePath orgContent,
        mapSet m (basenameStrip localFilePath (extname localFilePath)) now)
    | .keepLocal => (true, fs, m)
    | .mergeManually =>
      (false, fs, mapSet m (basenameStrip localFilePath (extname localFilePath)) now)
    | .cancelled => (false, fs, m)

/-- `pathParts.slice(0, lwcIndex + 2).join(path.sep)`; a missing `lwc`
segment gives `slice(0, 1)` as in the source (`findIndex` returns `-1`). -/
def bundlePathOf (localFilePath : String) : String :=
  let parts := splitPath localFilePath
  let lwcIndex := parts.findIdx (· == "lwc")
  String.intercalate "/" (parts.take (if lwcIndex = parts.length then 1 else lwcIndex + 2))

/-- Is this bundle member file of a relevant extension (`.html`/`.js`/`.css`,
case-insensitively)? -/
def isRelevantMember (file : String) : Bool :=
  lowerStr (extname file) == ".html" || lowerStr (extname file) == ".js"
    || lowerStr (extname file) == ".css"

/-- The member scan loop of `showLWCDiffAndResolve`: for each relevant bundle
file, fetch the org version (`fetch`, the `retrieveOrgVersion` oracle); a
failed fetch silently skips the member; a successful fetch reads the local
file (a throwing read aborts the whole procedure, modelled as `Except.error`)
and records the member when the contents differ.  Entries are
(local path, org content). -/
def scanBundle (fs : FileSystem) (fetch : String → Option String) (bundlePath : String) :
    List String → Except Unit (List (String × String))
  | [] => .ok []
  | file :: rest =>
    let localPath := bundlePath ++ "/" ++ file
    match fetch localPath with
    | none => scanBundle fs fetch bundlePath rest
    | some orgContent =>
      match fsRead fs localPath with
      | none => .error ()
      | some localContent =>
        match scanBundle fs fetch bundlePath rest with
        | .error e => .error e
        | .ok tail =>
          .ok (if localContent ≠ orgContent then (localPath, orgContent) :: tail else tail)

/-- The `Use Org Version (All)` write loop: overwrite each differing member
with its org content. -/
def writeAll (fs : FileSystem) : List (String × String) → FileSystem
  | [] => fs
  | (p, c) :: rest => writeAll (fsWrite fs p c) rest

/-- `showLWCDiffAndResolve` from `src/extension.ts`: scans the bundle members,
short-circuits to resolved when no member differs, otherwise applies the
chosen strategy uniformly to all differing members. -/
def showLWCDiffAndResolve (workspaceFolder : Option String)
    (localFilePath componentName : String) (fs : FileSystem)
    (bundleFiles : List String) (fetch : String → Option String)
    (choice : Choice) (now : Nat) (m : RetrieveMap) : Bool × FileSystem × RetrieveMap :=
  match workspaceFolder with
  | none => (false, fs, m)
  | some _ =>
    let bundlePath := bundlePathOf localFilePath
    let relevantFiles := bundleFiles.filter isRelevantMember
    match scanBundle fs fetch bundlePath relevantFiles with
    | .error _ => (false, fs, m)
    | .ok filesWithChanges =>
      if filesWithChanges.isEmpty then (true, fs, m)
      else
        match choice with
        | .useOrgVersion =>
          (true, writeAll fs filesWithChanges, mapSet m componentName now)
        | .keepLocal => (true, fs, m)
        | .mergeManually => (false, fs, mapSet m componentName now)
        | .cancelled => (false, fs, m)

/-- `showDiffAndResolve` from `src/extension.ts`: dispatches LWC bundles to
`showLWCDiffAndResolve` (with the bundle name as component name) and
everything else to the single-file flow. -/
def showDiffAndResolve (workspaceFolder : Option String) (localFilePath : String)
    (fs : FileSystem) (bundleFiles : List String) (fetch : String → Option String)
    (orgFetch : Option String) (choice : Choice) (now : Nat) (m : RetrieveMap) :
    Bool × FileSystem × RetrieveMap :=
  match getMetadataInfo localFilePath with
  | some mi =>
    if mi.type = "LightningComponentBundle" then
      showLWCDiffAndResolve workspaceFolder localFilePath mi.name fs bundleFiles fetch choice now m
    else
      showDiffAndResolveSingle localFilePath fs orgFetch choice now m
  | none => showDiffAndResolveSingle localFilePath fs orgFetch choice now m

/-! ## Resolution claims -/

theorem fsRead_write_ne (fs : FileSystem) (p c q : String) (h : p ≠ q) :
    fsRead (fsWrite fs p c) q = fsRead fs q := by
  induction fs with
  | nil => simp [fsWrite, fsRead, h]
  | cons hd t ih =>
    obtain ⟨p', c'⟩ := hd
    by_cases hp : p' = p <;> simp [fsWrite, fsRead, hp, ih]
    rw [if_neg (hp ▸ h), if_neg (hp ▸ h)]

theorem writeAll_read_notin (changes : List (String × String)) (fs : FileSystem) (q : String)
    (h : ∀ pc ∈ changes, pc.1 ≠ q) :
    fsRead (writeAll fs changes) q = fsRead fs q := by
  induction changes generalizing fs with
  | nil => rfl
  | cons pc rest ih =>
    obtain ⟨p, c⟩ := pc
    have hp : p ≠ q := h (p, c) (List.mem_cons_self _ _)
    simp only [writeAll]
    rw [ih (fsWrite fs p c) (fun pc hpc => h pc (List.mem_cons_of_mem _ hpc)),
      fsRead_write_ne fs p c q hp]

theorem scanBundle_fetch_some (fs : FileSystem) (fetch : String → Option String)
    (bp : String) (files : List String) (changes : List (String × String))
    (h : scanBundle fs fetch bp files = .ok changes) :
    ∀ pc ∈ changes, fetch pc.1 = some pc.2 := by
  induction files generalizing changes with
  | nil =>
    simp only [scanBundle, Except.ok.injEq] at h
    subst h
    simp
  | cons file rest ih =>
    simp only [scanBundle] at h
    rcases hf : fetch (bp ++ "/" ++ file) with _ | org <;> rw [hf] at h
    · exact ih changes h
    rcases hr : fsRead fs (bp ++ "/" ++ file) with _ | loc <;> rw [hr] at h
    · exact absurd h (by simp)
    rcases hs : scanBundle fs fetch bp rest with e | tail <;> rw [hs] at h
    · exact absurd h (by simp)
    rw [Except.ok.injEq] at h
    subst h
    intro pc hpc
    by_cases hne : loc ≠ org
    · rw [if_pos hne] at hpc
      rcases List.mem_cons.mp hpc with rfl | hpc
      · exact hf
      · exact ih tail hs pc hpc
    · rw [if_neg hne] at hpc
      exact ih tail hs pc hpc

/-- C5 counterexample: after a keep-local resolution the watermark is *not*
updated to `now`.  Concretely, with watermark `5` and `now = 99`, keep-local
returns resolved but the watermark is still `5`, contradicting the claim that
the watermark is updated to now. -/
theorem keep_local_counterexample :
    (showDiffAndResolveSingle "a/Foo.cls" [("a/Foo.cls", "loc")] (some "org") .keepLocal 99
        [("Foo", 5)]).1 = true
    ∧ mapGet (showDiffAndResolveSingle "a/Foo.cls" [("a/Foo.cls", "loc")] (some "org")
        .keepLocal 99 [("Foo", 5)]).2.2 "Foo" = some 5
    ∧ (5 : Nat) ≠ 99 := by
  decide

/-- C5 amended: the keep-local strategy (single-file, or uniformly for a
bundle) changes no local file content and returns the resolved outcome, but
leaves the watermark map entirely unchanged (it is *not* updated to now). -/
theorem keep_local_no_changes :
    (∀ (p : String) (fs : FileSystem) (org : String) (now : Nat) (m : RetrieveMap),
      showDiffAndResolveSingle p fs (some org) .keepLocal now m = (true, fs, m))
    ∧ (∀ (w p name : String) (fs : FileSystem) (files : List String)
        (fetch : String → Option String) (now : Nat) (m : RetrieveMap)
        (changes : List (String × String)),
        scanBundle fs fetch (bundlePathOf p) (files.filter isRelevantMember) = .ok changes →
        showLWCDiffAndResolve (some w) p name fs files fetch .keepLocal now m = (true, fs, m)) := by
  refine ⟨fun p fs org now m => rfl, ?_⟩
  intro w p name fs files fetch now m changes hscan
  simp only [showLWCDiffAndResolve, hscan]
  split <;> rfl

/-- Witness for C5 amended at a concrete input: keep-local on a bundle with
one differing member leaves file system and watermark untouched. -/
theorem keep_local_no_changes_witness :
    showLWCDiffAndResolve (some "w") "a/lwc/comp/comp.js" "comp"
        [("a/lwc/comp/comp.js", "loc")] ["comp.js"] (fun _ => some "neworg")
        .keepLocal 42 [("comp", 5)]
      = (true, [("a/lwc/comp/comp.js", "loc")], [("comp", 5)]) :=
  keep_local_no_changes.2 "w" "a/lwc/comp/comp.js" "comp"
    [("a/lwc/comp/comp.js", "loc")] ["comp.js"] (fun _ => some "neworg") 42 [("comp", 5)]
    [("a/lwc/comp/comp.js", "neworg")] (by rfl)

/-- C6 counterexample: when fetching the org snapshot fails for a bundle
member, resolution does *not* abort with the unresolved outcome: the member
is silently skipped, and with every fetch failing the scan finds no
differences and the procedure returns the resolved (`true`) outcome. -/
theorem failed_fetch_counterexample :
    (showLWCDiffAndResolve (some "w") "a/lwc/comp/comp.js" "comp"
      [("a/lwc/comp/comp.js", "loc")] ["comp.js"] (fun _ => none) .cancelled 0 []).1 = true := by
  decide

/-- C6 amended: a failed single-file fetch aborts resolution with the
unresolved (`false`) outcome and leaves the file system and watermark map
unchanged; a failed fetch of a bundle member does not abort — the member is
skipped from diffing — but no local file whose fetch failed is ever written,
under any strategy. -/
theorem failed_fetch_no_writes :
    (∀ (p : String) (fs : FileSystem) (choice : Choice) (now : Nat) (m : RetrieveMap),
      showDiffAndResolveSingle p fs none choice now m = (false, fs, m))
    ∧ (∀ (w p name : String) (fs : FileSystem) (files : List String)
        (fetch : String → Option String) (choice : Choice) (now : Nat) (m : RetrieveMap)
        (q : String), fetch q = none →
        fsRead (showLWCDiffAndResolve (some w) p name fs files fetch choice now m).2.1 q
          = fsRead fs q) := by
  refine ⟨fun p fs choice now m => rfl, ?_⟩
  intro w p name fs files fetch choice now m q hq
  rcases hscan : scanBundle fs fetch (bundlePathOf p) (files.filter isRelevantMember)
    with e | changes
  · simp [showLWCDiffAndResolve, hscan]
  simp only [showLWCDiffAndResolve, hscan]
  have hmem : ∀ pc ∈ changes, pc.1 ≠ q := by
    intro pc hpc heq
    have := scanBundle_fetch_some fs fetch (bundlePathOf p) (files.filter isRelevantMember)
      changes hscan pc hpc
    rw [heq, hq] at this
    exact absurd this (by simp)
  by_cases hemp : changes.isEmpty
  · simp [hemp]
  rw [if_neg hemp]
  cases choice
  · exact writeAll_read_notin changes fs q hmem
  · rfl
  · rfl
  · rfl

/-- Witness for C6 amended at a concrete input: adopting the org version in a
bundle where one member's fetch failed leaves that member's local content
unread and unwritten. -/
theorem failed_fetch_no_writes_witness :
    fsRead (showLWCDiffAndResolve (some "w") "a/lwc/comp/comp.js" "comp"
        [("a/lwc/comp/comp.js", "loc"), ("a/lwc/comp/comp.html", "h")]
        ["comp.js", "comp.html"]
        (fun s => if s = "a/lwc/comp/comp.js" then some "neworg" else none)
        .useOrgVersion 42 []).2.1 "a/lwc/comp/comp.html"
      = fsRead [("a/lwc/comp/comp.js", "loc"), ("a/lwc/comp/comp.html", "h")]
          "a/lwc/comp/comp.html" :=
  failed_fetch_no_writes.2 "w" "a/lwc/comp/comp.js" "comp"
    [("a/lwc/comp/comp.js", "loc"), ("a/lwc/comp/comp.html", "h")]
    ["comp.js", "comp.html"]
    (fun s => if s = "a/lwc/comp/comp.js" then some "neworg" else none)
    .useOrgVersion 42 [] "a/lwc/comp/comp.html" (by decide)

/-! ## Artifact Resolver claims -/

theorem splitSegs_ne_nil (l : List Char) : splitSegs l ≠ [] := by
  cases l with
  | nil => simp [splitSegs]
  | cons c t =>
    simp only [splitSegs]
    split
    · simp
    · unfold consHead
      split <;> simp

theorem splitSegs_sepfree (l : List Char) (h : ∀ c ∈ l, isSep c = false) :
    splitSegs l = [l] := by
  induction l with
  | nil => rfl
  | cons c t ih =>
    have hc : isSep c = false := h c (List.mem_cons_self _ _)
    have ht := ih fun x hx => h x (List.mem_cons_of_mem _ hx)
    simp [splitSegs, hc, ht, consHead]

theorem splitSegs_append_sep (x y : List Char) (hy : ∀ c ∈ y, isSep c = false) :
    splitSegs (x ++ '/' :: y) = splitSegs x ++ [y] := by
  induction x with
  | nil =>
    simp [splitSegs, isSep, splitSegs_sepfree y hy]
  | cons c t ih =>
    rw [List.cons_append]
    by_cases hc : isSep c = true
    · simp only [splitSegs, hc, if_true, ih, List.cons_append]
    · rw [Bool.not_eq_true] at hc
      rcases hs : splitSegs t with _ | ⟨s, rest⟩
      · exact absurd hs (splitSegs_ne_nil t)
      simp only [splitSegs, hc, Bool.false_eq_true, if_false, ih, hs, consHead,
        List.cons_append]

theorem string_mk_data (s : String) : String.mk s.data = s := rfl

theorem data_append_sep (d f : String) :
    (d ++ "/" ++ f).data = d.data ++ '/' :: f.data := by
  rw [String.data_append, String.data_append, List.append_assoc]
  rfl

theorem splitPath_append (d f : String) (hf : ∀ c ∈ f.data, isSep c = false) :
    splitPath (d ++ "/" ++ f) = splitPath d ++ [f] := by
  simp only [splitPath, data_append_sep, splitSegs_append_sep d.data f.data hf,
    List.map_append, List.map_cons, List.map_nil, string_mk_data]

theorem takeWhile_append_sep (a : List Char) (x : Char) (b : List Char)
    (ha : ∀ c ∈ a, isSep c = false) (hx : isSep x = true) :
    (a ++ x :: b).takeWhile (fun c => !isSep c) = a := by
  induction a with
  | nil => simp [List.takeWhile_cons, hx]
  | cons c t ih =>
    have hc : isSep c = false := ha c (List.mem_cons_self _ _)
    simp [List.takeWhile_cons, hc, ih fun u hu => ha u (List.mem_cons_of_mem _ hu)]

theorem takeWhile_sepfree (l : List Char) (h : ∀ c ∈ l, isSep c = false) :
    l.takeWhile (fun c => !isSep c) = l := by
  induction l with
  | nil => rfl
  | cons c t ih =>
    simp [List.takeWhile_cons, h c (List.mem_cons_self _ _),
      ih fun u hu => h u (List.mem_cons_of_mem _ hu)]

theorem basenameChars_append (d f : String) (hf : ∀ c ∈ f.data, isSep c = false)
    (hne : f.data ≠ []) :
    basenameChars (d ++ "/" ++ f).data = basenameChars f.data := by
  have hrevf : ∀ c ∈ f.data.reverse, isSep c = false := fun c hc =>
    hf c (List.mem_reverse.mp hc)
  unfold basenameChars
  rw [data_append_sep, List.reverse_append, List.reverse_cons, List.append_assoc,
    List.singleton_append]
  rcases hrev : f.data.reverse with _ | ⟨c, rest⟩
  · exact absurd (by simpa using congrArg List.reverse hrev) hne
  rw [hrev] at hrevf
  have hc : isSep c = false := hrevf c (List.mem_cons_self _ _)
  have hrest : ∀ u ∈ rest, isSep u = false := fun u hu => hrevf u (List.mem_cons_of_mem _ hu)
  rw [List.cons_append, List.dropWhile_cons, hc, List.dropWhile_cons, hc]
  simp only [Bool.false_eq_true, if_false, List.takeWhile_cons, hc, Bool.not_false, if_true]
  rw [takeWhile_append_sep rest '/' d.data.reverse hrest (by decide),
    takeWhile_sepfree rest hrest]

theorem extname_append (d f : String) (hf : ∀ c ∈ f.data, isSep c = false)
    (hne : f.data ≠ []) :
    extname (d ++ "/" ++ f) = extname f := by
  unfold extname
  rw [basenameChars_append d f hf hne]

/-- Evaluation of `getMetadataInfo` on a bundle-eligible extension: the result
is determined by the first `lwc` path segment. -/
theorem getMetadataInfo_bundle (p : String)
    (hext : lowerStr (extname p) = ".js" ∨ lowerStr (extname p) = ".html"
      ∨ lowerStr (extname p) = ".css") :
    getMetadataInfo p =
      if (splitPath p).findIdx (· == "lwc") + 1 < (splitPath p).length then
        some ⟨"LightningComponentBundle",
          (splitPath p).getD ((splitPath p).findIdx (· == "lwc") + 1) ""⟩
      else none := by
  rcases hext with h | h | h <;> simp [getMetadataInfo, h]

/-- Evaluation of `getMetadataInfo` on a member file `f` (no separators,
nonempty, bundle-eligible extension) inside a directory `d` that contains an
`lwc` segment followed by at least one more segment of `d` itself: the
identity's name is that following segment of `d`, independent of `f`. -/
theorem getMetadataInfo_member (d f : String)
    (hf : ∀ c ∈ f.data, isSep c = false) (hne : f.data ≠ [])
    (hext : lowerStr (extname f) = ".js" ∨ lowerStr (extname f) = ".html"
      ∨ lowerStr (extname f) = ".css")
    (hl : (splitPath d).findIdx (· == "lwc") + 1 < (splitPath d).length) :
    getMetadataInfo (d ++ "/" ++ f)
      = some ⟨"LightningComponentBundle",
          (splitPath d).getD ((splitPath d).findIdx (· == "lwc") + 1) ""⟩ := by
  have hsplit : splitPath (d ++ "/" ++ f) = splitPath d ++ [f] := splitPath_append d f hf
  have hext2 : lowerStr (extname (d ++ "/" ++ f)) = lowerStr (extname f) := by
    rw [extname_append d f hf hne]
  have hidx : (splitPath (d ++ "/" ++ f)).findIdx (· == "lwc")
      = (splitPath d).findIdx (· == "lwc") := by
    rw [hsplit, List.findIdx_append, if_pos (by omega)]
  have hlen : (splitPath d).length < (splitPath (d ++ "/" ++ f)).length := by
    rw [hsplit]
    simp
  rw [getMetadataInfo_bundle (d ++ "/" ++ f) (by rw [hext2]; exact hext),
    if_pos (by omega), hidx, hsplit,
    List.getD_append _ _ _ _ (by omega)]

/-- C8 amended: the artifact-resolution contract of `getMetadataInfo` (a
pure function of the path), corrected for extension casing: eligibility is
case-insensitive but the suffix strip is case-sensitive.  (1)–(3): a path
whose extension is literally `.cls`, `.trigger`, or `.apex` resolves to the
corresponding single-file type with the file's base name without its
extension.  (4)–(6): more generally, a path whose *lowercased* extension is
`.cls`, `.trigger`, or `.apex` resolves to the corresponding single-file
type named by the basename with the lowercased suffix stripped
case-sensitively — so a non-lowercase extension (e.g. `.CLS`) keeps its
suffix in the name.  (7): a path with a bundle-eligible extension
(`.js`/`.html`/`.css`, case-insensitively) resolves to a
`LightningComponentBundle` named by the segment after the first `lwc`
segment when one exists with a successor, and to nothing otherwise.
(8): two member files in the same bundle directory (a directory whose
segments contain `lwc` followed by another segment) resolve to the *same*
identity name.  (9): any other extension resolves to nothing. -/
theorem metadata_resolution_contract :
    (∀ p : String, extname p = ".cls" →
      getMetadataInfo p = some ⟨"ApexClass", basenameStrip p (extname p)⟩)
    ∧ (∀ p : String, extname p = ".trigger" →
      getMetadataInfo p = some ⟨"ApexTrigger", basenameStrip p (extname p)⟩)
    ∧ (∀ p : String, extname p = ".apex" →
      getMetadataInfo p = some ⟨"ApexPage", basenameStrip p (extname p)⟩)
    ∧ (∀ p : String, lowerStr (extname p) = ".cls" →
      getMetadataInfo p = some ⟨"ApexClass", basenameStrip p ".cls"⟩)
    ∧ (∀ p : String, lowerStr (extname p) = ".trigger" →
      getMetadataInfo p = some ⟨"ApexTrigger", basenameStrip p ".trigger"⟩)
    ∧ (∀ p : String, lowerStr (extname p) = ".apex" →
      getMetadataInfo p = some ⟨"ApexPage", basenameStrip p ".apex"⟩)
    ∧ (∀ p : String,
        (lowerStr (extname p) = ".js" ∨ lowerStr (extname p) = ".html"
          ∨ lowerStr (extname p) = ".css") →
        getMetadataInfo p =
          if (splitPath p).findIdx (· == "lwc") + 1 < (splitPath p).length then
            some ⟨"LightningComponentBundle",
              (splitPath p).getD ((splitPath p).findIdx (· == "lwc") + 1) ""⟩
          else none)
    ∧ (∀ d f1 f2 : String,
        (∀ c ∈ f1.data, isSep c = false) → f1.data ≠ [] →
        (∀ c ∈ f2.data, isSep c = false) → f2.data ≠ [] →
        (lowerStr (extname f1) = ".js" ∨ lowerStr (extname f1) = ".html"
          ∨ lowerStr (extname f1) = ".css") →
        (lowerStr (extname f2) = ".js" ∨ lowerStr (extname f2) = ".html"
          ∨ lowerStr (extname f2) = ".css") →
        (splitPath d).findIdx (· == "lwc") + 1 < (splitPath d).length →
        ∃ nm : String,
          getMetadataInfo (d ++ "/" ++ f1) = some ⟨"LightningComponentBundle", nm⟩
          ∧ getMetadataInfo (d ++ "/" ++ f2) = some ⟨"LightningComponentBundle", nm⟩)
    ∧ (∀ p : String,
        lowerStr (extname p) ≠ ".cls" → lowerStr (extname p) ≠ ".trigger" →
        lowerStr (extname p) ≠ ".apex" → lowerStr (extname p) ≠ ".js" →
        lowerStr (extname p) ≠ ".html" → lowerStr (extname p) ≠ ".css" →
        getMetadataInfo p = none) := by
  refine ⟨?_, ?_, ?_, ?_, ?_, ?_, fun p h => getMetadataInfo_bundle p h, ?_, ?_⟩
  · intro p h
    have hl : lowerStr ".cls" = ".cls" := rfl
    simp [getMetadataInfo, h, hl]
  · intro p h
    have hl : lowerStr ".trigger" = ".trigger" := rfl
    simp [getMetadataInfo, h, hl]
  · intro p h
    have hl : lowerStr ".apex" = ".apex" := rfl
    simp [getMetadataInfo, h, hl]
  · intro p h
    simp [getMetadataInfo, h]
  · intro p h
    simp [getMetadataInfo, h]
  · intro p h
    simp [getMetadataInfo, h]
  · intro d f1 f2 hf1 hne1 hf2 hne2 hext1 hext2 hl
    exact ⟨(splitPath d).getD ((splitPath d).findIdx (· == "lwc") + 1) "",
      getMetadataInfo_member d f1 hf1 hne1 hext1 hl,
      getMetadataInfo_member d f2 hf2 hne2 hext2 hl⟩
  · intro p h1 h2 h3 h4 h5 h6
    simp [getMetadataInfo, h1, h2, h3, h4, h5, h6]

/-- C8 counterexample: the claim's trichotomy fails on uppercase-extension
paths.  `a/Foo.CLS` is eligible (the code lowercases the extension before
comparing) and resolves to an `ApexClass` identity, but its name keeps the
suffix — `"Foo.CLS"`, not the base name without extension `"Foo"` — because
`path.basename(p, ext)` strips case-sensitively; nor is the result
`NotAnArtifact`. -/
theorem metadata_uppercase_counterexample :
    getMetadataInfo "a/Foo.CLS" = some ⟨"ApexClass", "Foo.CLS"⟩
    ∧ extname "a/Foo.CLS" = ".CLS"
    ∧ basenameStrip "a/Foo.CLS" (extname "a/Foo.CLS") = "Foo"
    ∧ ("Foo.CLS" : String) ≠ "Foo" := by
  decide

/-- Witness for C8 at concrete inputs: a lowercase class file (name stripped),
an uppercase class file (suffix kept), and two members of the same bundle
directory resolving to the same bundle name. -/
theorem metadata_resolution_contract_witness :
    getMetadataInfo "a/Foo.cls" = some ⟨"ApexClass", "Foo"⟩
    ∧ getMetadataInfo "a/Bar.Cls" = some ⟨"ApexClass", "Bar.Cls"⟩
    ∧ ∃ nm : String,
        getMetadataInfo ("app/lwc/comp" ++ "/" ++ "comp.js")
          = some ⟨"LightningComponentBundle", nm⟩
        ∧ getMetadataInfo ("app/lwc/comp" ++ "/" ++ "comp.html")
          = some ⟨"LightningComponentBundle", nm⟩ :=
  ⟨(metadata_resolution_contract.1 "a/Foo.cls" (by decide)).trans (by decide),
   (metadata_resolution_contract.2.2.2.1 "a/Bar.Cls" (by decide)).trans (by decide),
   metadata_resolution_contract.2.2.2.2.2.2.2.1 "app/lwc/comp" "comp.js" "comp.html"
     (by decide) (by decide) (by decide) (by decide)
     (Or.inl (by decide)) (Or.inr (Or.inl (by decide))) (by decide)⟩

/-! ## Timestamp serialization (`Date.prototype.toISOString` / `new Date(string)`)

The watermark store serializes each `Date` with `toISOString` and reads it
back with `new Date(string)`.  The calendar arithmetic below is the proleptic
Gregorian calendar on days since the Unix epoch (the extensional behavior of
the ECMAScript `YearFromTime`/`MakeDay` algorithms), formulated with the
standard era-based conversion.  Bounded facts about the 400-year era are
established by a verified divide-and-conquer enumeration (`chkRange`). -/

def fCorr (doe : Nat) : Nat := doe - doe / 1460 + doe / 36524 - doe / 146096
def yoeOf (doe : Nat) : Nat := fCorr doe / 365
def yearStartOf (yoe : Nat) : Nat := 365 * yoe + yoe / 4 - yoe / 100
def ysFull (y : Nat) : Nat := 365 * y + y / 4 - y / 100 + y / 400

def chkRange (p : Nat → Bool) : Nat → Nat → Nat → Bool
  | 0, _, len => len == 0
  | fuel + 1, lo, len =>
    if len ≤ 1 then (len == 0 || p lo)
    else chkRange p fuel lo (len / 2) && chkRange p fuel (lo + len / 2) (len - len / 2)

theorem chkRange_sound (p : Nat → Bool) (fuel lo len : Nat)
    (h : chkRange p fuel lo len = true) :
    ∀ i, lo ≤ i → i < lo + len → p i = true := by
  induction fuel generalizing lo len with
  | zero =>
    simp only [chkRange, beq_iff_eq] at h
    omega
  | succ fuel ih =>
    intro i h1 h2
    simp only [chkRange] at h
    split at h
    · rcases Bool.or_eq_true_iff.mp h with h | h
      · simp only [beq_iff_eq] at h; omega
      · have hi : i = lo := by omega
        exact hi ▸ h
    · rcases Bool.and_eq_true_iff.mp h with ⟨hl, hr⟩
      by_cases hc : i < lo + len / 2
      · exact ih lo (len / 2) hl i h1 hc
      · exact ih (lo + len / 2) (len - len / 2) hr i (by omega) (by omega)

def yoeBoundaryOk (y : Nat) : Bool :=
  Nat.ble (365 * y) (fCorr (ysFull y)) &&
    Nat.ble (fCorr (ysFull (y + 1) - 1)) (365 * y + 364) &&
    Nat.ble (ysFull (y + 1) - ysFull y) 366

theorem yoeBoundary_all : chkRange yoeBoundaryOk 10 0 400 = true := by decide

def mpRangeOk (doy : Nat) : Bool :=
  Nat.ble ((5 * doy + 2) / 153) 11 &&
    Nat.ble ((153 * ((5 * doy + 2) / 153) + 2) / 5) doy &&
    Nat.ble (doy - (153 * ((5 * doy + 2) / 153) + 2) / 5) 30

theorem mpRange_all : chkRange mpRangeOk 10 0 366 = true := by decide

theorem fCorr_step (x : Nat) : fCorr x ≤ fCorr (x + 1) := by
  unfold fCorr
  omega

theorem fCorr_mono {x y : Nat} (h : x ≤ y) : fCorr x ≤ fCorr y := by
  induction y with
  | zero => simp_all
  | succ n ih =>
    rcases Nat.lt_or_ge x (n + 1) with h2 | h2
    · exact le_trans (ih (by omega)) (fCorr_step n)
    · have hx : x = n + 1 := by omega
      simp [hx]

theorem ysFull_bracket (doe N : Nat) (h : doe < ysFull N) :
    ∃ y, y < N ∧ ysFull y ≤ doe ∧ doe < ysFull (y + 1) := by
  induction N with
  | zero => simp [ysFull] at h
  | succ N ih =>
    by_cases hc : ysFull N ≤ doe
    · exact ⟨N, Nat.lt_succ_self N, hc, h⟩
    · obtain ⟨y, hy1, hy2, hy3⟩ := ih (by omega)
      exact ⟨y, by omega, hy2, hy3⟩

theorem yoe_spec (doe : Nat) (h : doe < 146097) :
    yoeOf doe ≤ 399 ∧ yearStartOf (yoeOf doe) ≤ doe
      ∧ doe - yearStartOf (yoeOf doe) ≤ 365 := by
  have hN : doe < ysFull 400 := by
    have : ysFull 400 = 146097 := by decide
    omega
  obtain ⟨y, hy400, hys, hlt⟩ := ysFull_bracket doe 400 hN
  have hb := chkRange_sound yoeBoundaryOk 10 0 400 yoeBoundary_all y (by omega) (by omega)
  simp only [yoeBoundaryOk, Bool.and_eq_true, Nat.ble_eq] at hb
  obtain ⟨⟨hb1, hb2⟩, hb3⟩ := hb
  have hm1 : fCorr (ysFull y) ≤ fCorr doe := fCorr_mono hys
  have hm2 : fCorr doe ≤ fCorr (ysFull (y + 1) - 1) := fCorr_mono (by omega)
  have hyoe : yoeOf doe = y := by
    unfold yoeOf
    omega
  rw [hyoe]
  unfold yearStartOf ysFull at *
  omega

theorem mp_spec (doy : Nat) (h : doy ≤ 365) :
    (5 * doy + 2) / 153 ≤ 11 ∧ (153 * ((5 * doy + 2) / 153) + 2) / 5 ≤ doy
      ∧ doy - (153 * ((5 * doy + 2) / 153) + 2) / 5 ≤ 30 := by
  have hb := chkRange_sound mpRangeOk 10 0 366 mpRange_all doy (by omega) (by omega)
  simp only [mpRangeOk, Bool.and_eq_true, Nat.ble_eq] at hb
  exact ⟨hb.1.1, hb.1.2, hb.2⟩

def doeOfDays (days : Nat) : Nat := (days + 719468) % 146097
def eraOfDays (days : Nat) : Nat := (days + 719468) / 146097
def doyOfDays (days : Nat) : Nat := doeOfDays days - yearStartOf (yoeOf (doeOfDays days))
def mpOfDays (days : Nat) : Nat := (5 * doyOfDays days + 2) / 153
def civilMonth (days : Nat) : Nat :=
  if mpOfDays days < 10 then mpOfDays days + 3 else mpOfDays days - 9
def civilDay (days : Nat) : Nat := doyOfDays days - (153 * mpOfDays days + 2) / 5 + 1
def civilYear (days : Nat) : Nat :=
  if civilMonth days ≤ 2 then yoeOf (doeOfDays days) + eraOfDays days * 400 + 1
  else yoeOf (doeOfDays days) + eraOfDays days * 400

def civilFromDays (days : Nat) : Nat × Nat × Nat :=
  (civilYear days, civilMonth days, civilDay days)

def daysFromCivil (y m d : Nat) : Nat :=
  let yAdj := if m ≤ 2 then y - 1 else y
  let era := yAdj / 400
  let yoe := yAdj % 400
  let mp := if 2 < m then m - 3 else m + 9
  let doy := (153 * mp + 2) / 5 + d - 1
  let doe := yoe * 365 + yoe / 4 - yoe / 100 + doy
  era * 146097 + doe - 719468

theorem daysFromCivil_eval (Y E mp doy : Nat) (hY : Y ≤ 399) (hmp : mp ≤ 11)
    (hq : (153 * mp + 2) / 5 ≤ doy) :
    daysFromCivil
      (if (if mp < 10 then mp + 3 else mp - 9) ≤ 2 then Y + E * 400 + 1 else Y + E * 400)
      (if mp < 10 then mp + 3 else mp - 9)
      (doy - (153 * mp + 2) / 5 + 1)
    = E * 146097 + (Y * 365 + Y / 4 - Y / 100 + doy) - 719468 := by
  have hEc : (Y + E * 400) / 400 = E := by omega
  have hyoe2 : (Y + E * 400) % 400 = Y := by omega
  simp only [daysFromCivil]
  by_cases hA : mp < 10
  · simp only [if_pos hA, if_neg (by omega : ¬ (mp + 3 ≤ 2)),
      if_pos (by omega : 2 < mp + 3)]
    rw [hEc, hyoe2]
    omega
  · have hB : mp - 9 ≤ 2 := by omega
    simp only [if_neg hA, if_pos hB, if_neg (by omega : ¬ 2 < mp - 9),
      Nat.add_sub_cancel]
    rw [hEc, hyoe2]
    omega

theorem civil_roundtrip (n : Nat) :
    daysFromCivil (civilFromDays n).1 (civilFromDays n).2.1 (civilFromDays n).2.2 = n := by
  have hdoe : (n + 719468) % 146097 < 146097 := Nat.mod_lt _ (by norm_num)
  obtain ⟨h1, h2, h3⟩ := yoe_spec _ hdoe
  obtain ⟨p1, p2, p3⟩ := mp_spec ((n + 719468) % 146097
    - yearStartOf (yoeOf ((n + 719468) % 146097))) h3
  simp only [yearStartOf] at h1 h2 h3 p1 p2 p3
  simp only [civilFromDays, civilYear, civilMonth, civilDay, mpOfDays,
    doyOfDays, doeOfDays, eraOfDays, yearStartOf]
  rw [daysFromCivil_eval (yoeOf ((n + 719468) % 146097)) ((n + 719468) / 146097)
    ((5 * ((n + 719468) % 146097
      - (365 * yoeOf ((n + 719468) % 146097) + yoeOf ((n + 719468) % 146097) / 4
        - yoeOf ((n + 719468) % 146097) / 100)) + 2) / 153)
    ((n + 719468) % 146097
      - (365 * yoeOf ((n + 719468) % 146097) + yoeOf ((n + 719468) % 146097) / 4
        - yoeOf ((n + 719468) % 146097) / 100))
    h1 p1 p2]
  omega

theorem civilMonthDay_bounds (days : Nat) :
    1 ≤ (civilFromDays days).2.1 ∧ (civilFromDays days).2.1 ≤ 12
      ∧ 1 ≤ (civilFromDays days).2.2 ∧ (civilFromDays days).2.2 ≤ 31 := by
  have hdoe : (days + 719468) % 146097 < 146097 := Nat.mod_lt _ (by norm_num)
  obtain ⟨h1, h2, h3⟩ := yoe_spec _ hdoe
  obtain ⟨p1, p2, p3⟩ := mp_spec ((days + 719468) % 146097
    - yearStartOf (yoeOf ((days + 719468) % 146097))) h3
  simp only [yearStartOf] at h1 h2 h3 p1 p2 p3
  simp only [civilFromDays, civilMonth, civilDay, mpOfDays, doyOfDays, doeOfDays,
    yearStartOf]
  split_ifs <;> omega

theorem civilYear_le (days : Nat) (h : days ≤ 2932896) :
    (civilFromDays days).1 ≤ 9999 := by
  have hdoe : (days + 719468) % 146097 < 146097 := Nat.mod_lt _ (by norm_num)
  obtain ⟨h1, h2, h3⟩ := yoe_spec _ hdoe
  obtain ⟨p1, p2, p3⟩ := mp_spec ((days + 719468) % 146097
    - yearStartOf (yoeOf ((days + 719468) % 146097))) h3
  simp only [yearStartOf] at h1 h2 h3 p1 p2 p3
  simp only [civilFromDays, civilYear, civilMonth, mpOfDays, doyOfDays, doeOfDays,
    eraOfDays, yearStartOf]
  split_ifs <;> omega

/-- The decimal digit character for `k < 10`. -/
def digitChar (k : Nat) : Char := Char.ofNat (48 + k % 10)

/-- Parse one decimal digit character. -/
def digitVal (c : Char) : Option Nat :=
  if 48 ≤ c.toNat ∧ c.toNat ≤ 57 then some (c.toNat - 48) else none

theorem digitVal_digitChar (k : Nat) (h : k < 10) : digitVal (digitChar k) = some k := by
  interval_cases k <;> decide

def pad2 (n : Nat) : List Char := [digitChar (n / 10 % 10), digitChar (n % 10)]
def pad3 (n : Nat) : List Char :=
  [digitChar (n / 100 % 10), digitChar (n / 10 % 10), digitChar (n % 10)]
def pad4 (n : Nat) : List Char :=
  [digitChar (n / 1000 % 10), digitChar (n / 100 % 10), digitChar (n / 10 % 10),
    digitChar (n % 10)]

def digits2 (a b : Char) : Option Nat :=
  match digitVal a, digitVal b with
  | some x, some y => some (10 * x + y)
  | _, _ => none

def digits3 (a b c : Char) : Option Nat :=
  match digitVal a, digitVal b, digitVal c with
  | some x, some y, some z => some (100 * x + 10 * y + z)
  | _, _, _ => none

def digits4 (a b c d : Char) : Option Nat :=
  match digitVal a, digitVal b, digitVal c, digitVal d with
  | some x, some y, some z, some w => some (1000 * x + 100 * y + 10 * z + w)
  | _, _, _, _ => none

theorem digits2_pad2 (n : Nat) (h : n < 100) :
    digits2 (digitChar (n / 10 % 10)) (digitChar (n % 10)) = some n := by
  rw [digits2, digitVal_digitChar _ (by omega), digitVal_digitChar _ (by omega)]
  exact congrArg some (by omega)

theorem digits3_pad3 (n : Nat) (h : n < 1000) :
    digits3 (digitChar (n / 100 % 10)) (digitChar (n / 10 % 10)) (digitChar (n % 10))
      = some n := by
  rw [digits3, digitVal_digitChar _ (by omega), digitVal_digitChar _ (by omega),
    digitVal_digitChar _ (by omega)]
  exact congrArg some (by omega)

theorem digits4_pad4 (n : Nat) (h : n < 10000) :
    digits4 (digitChar (n / 1000 % 10)) (digitChar (n / 100 % 10))
        (digitChar (n / 10 % 10)) (digitChar (n % 10)) = some n := by
  rw [digits4, digitVal_digitChar _ (by omega), digitVal_digitChar _ (by omega),
    digitVal_digitChar _ (by omega), digitVal_digitChar _ (by omega)]
  exact congrArg some (by omega)

/-- `Date.prototype.toISOString` for a (valid, year ≤ 9999) epoch-`Nat`
timestamp: `YYYY-MM-DDTHH:mm:ss.sssZ`. -/
def formatISO (t : Nat) : String :=
  ⟨pad4 (civilFromDays (t / 86400000)).1
    ++ '-' :: pad2 (civilFromDays (t / 86400000)).2.1
    ++ '-' :: pad2 (civilFromDays (t / 86400000)).2.2
    ++ 'T' :: pad2 (t % 86400000 / 3600000)
    ++ ':' :: pad2 (t % 3600000 / 60000)
    ++ ':' :: pad2 (t % 60000 / 1000)
    ++ '.' :: pad3 (t % 1000)
    ++ ['Z']⟩

/-- `new Date(string)` on a 24-character ISO string: extracts the fields,
validates their ranges, and recombines via the epoch day count.  Any other
shape is an invalid date (`none`). -/
def parseISO (s : String) : Option Nat :=
  match s.data with
  | [y1, y2, y3, y4, c1, mo1, mo2, c2, d1, d2, c3, h1, h2, c4, mi1, mi2, c5,
      s1, s2, c6, x1, x2, x3, c7] =>
    if c1 = '-' ∧ c2 = '-' ∧ c3 = 'T' ∧ c4 = ':' ∧ c5 = ':' ∧ c6 = '.' ∧ c7 = 'Z' then
      match digits4 y1 y2 y3 y4, digits2 mo1 mo2, digits2 d1 d2, digits2 h1 h2,
          digits2 mi1 mi2, digits2 s1 s2, digits3 x1 x2 x3 with
      | some y, some mo, some d, some hh, some mi, some ss, some ms =>
        if 1 ≤ mo ∧ mo ≤ 12 ∧ 1 ≤ d ∧ d ≤ 31 ∧ hh ≤ 23 ∧ mi ≤ 59 ∧ ss ≤ 59 then
          some (daysFromCivil y mo d * 86400000
            + hh * 3600000 + mi * 60000 + ss * 1000 + ms)
        else none
      | _, _, _, _, _, _, _ => none
    else none
  | _ => none

/-- The serialization round-trip `new Date(d.toISOString())` is the identity
on timestamps up to year 9999 (millisecond precision preserved exactly). -/
theorem parseISO_formatISO (t : Nat) (ht : t < 253402300800000) :
    parseISO (formatISO t) = some t := by
  have hdays : t / 86400000 ≤ 2932896 := by omega
  have hy : (civilFromDays (t / 86400000)).1 ≤ 9999 := civilYear_le _ hdays
  obtain ⟨hmo1, hmo2, hd1, hd2⟩ := civilMonthDay_bounds (t / 86400000)
  have hdata : (formatISO t).data
      = [digitChar ((civilFromDays (t / 86400000)).1 / 1000 % 10),
         digitChar ((civilFromDays (t / 86400000)).1 / 100 % 10),
         digitChar ((civilFromDays (t / 86400000)).1 / 10 % 10),
         digitChar ((civilFromDays (t / 86400000)).1 % 10), '-',
         digitChar ((civilFromDays (t / 86400000)).2.1 / 10 % 10),
         digitChar ((civilFromDays (t / 86400000)).2.1 % 10), '-',
         digitChar ((civilFromDays (t / 86400000)).2.2 / 10 % 10),
         digitChar ((civilFromDays (t / 86400000)).2.2 % 10), 'T',
         digitChar (t % 86400000 / 3600000 / 10 % 10),
         digitChar (t % 86400000 / 3600000 % 10), ':',
         digitChar (t % 3600000 / 60000 / 10 % 10),
         digitChar (t % 3600000 / 60000 % 10), ':',
         digitChar (t % 60000 / 1000 / 10 % 10),
         digitChar (t % 60000 / 1000 % 10), '.',
         digitChar (t % 1000 / 100 % 10), digitChar (t % 1000 / 10 % 10),
         digitChar (t % 1000 % 10), 'Z'] := rfl
  rw [parseISO, hdata]
  have hsep : ('-' : Char) = '-' ∧ ('-' : Char) = '-' ∧ ('T' : Char) = 'T'
      ∧ (':' : Char) = ':' ∧ (':' : Char) = ':' ∧ ('.' : Char) = '.'
      ∧ ('Z' : Char) = 'Z' := ⟨rfl, rfl, rfl, rfl, rfl, rfl, rfl⟩
  simp only [if_pos hsep]
  rw [digits4_pad4 _ (by omega), digits2_pad2 _ (by omega), digits2_pad2 _ (by omega),
    digits2_pad2 _ (by omega), digits2_pad2 _ (by omega), digits2_pad2 _ (by omega),
    digits3_pad3 _ (by omega)]
  simp only []
  have hrange : 1 ≤ (civilFromDays (t / 86400000)).2.1
      ∧ (civilFromDays (t / 86400000)).2.1 ≤ 12
      ∧ 1 ≤ (civilFromDays (t / 86400000)).2.2
      ∧ (civilFromDays (t / 86400000)).2.2 ≤ 31
      ∧ t % 86400000 / 3600000 ≤ 23 ∧ t % 3600000 / 60000 ≤ 59
      ∧ t % 60000 / 1000 ≤ 59 :=
    ⟨hmo1, hmo2, hd1, hd2, by omega, by omega, by omega⟩
  rw [if_pos hrange]
  rw [civil_roundtrip (t / 86400000)]
  have a1 : t % 60000 / 1000 * 1000 + t % 1000 = t % 60000 := by omega
  have a2 : t % 3600000 / 60000 * 60000 + t % 60000 = t % 3600000 := by omega
  have a3 : t % 86400000 / 3600000 * 3600000 + t % 3600000 = t % 86400000 := by omega
  have a4 : t / 86400000 * 86400000 + t % 86400000 = t := by omega
  exact congrArg some (by omega)

/-- `saveRetrieveMap`: serialize the watermark map entrywise via
`toISOString` into the stored `Record<string, string>`. -/
def saveRetrieveMap (m : RetrieveMap) : List (String × String) :=
  m.map fun kv => (kv.1, formatISO kv.2)

/-- `getRetrieveMap`: deserialize the stored record entrywise via
`new Date(value)`; an unparsable value is an invalid date (`none`). -/
def getRetrieveMap (stored : List (String × String)) : List (String × Option Nat) :=
  stored.map fun kv => (kv.1, parseISO kv.2)

/-- The `viewSyncStatus` listing: entries sorted most-recent-first with a
stable sort, as `entries.sort((a, b) => b.timestamp - a.timestamp)`. -/
def viewSyncStatusEntries (m : RetrieveMap) : RetrieveMap :=
  m.mergeSort fun a b => decide (b.2 ≤ a.2)

/-- C9: the watermark serialization round-trip and sync-status ordering.
Saving a watermark map (`saveRetrieveMap`, `toISOString` per entry) and
reading it back (`getRetrieveMap`, `new Date(value)` per entry) yields the
same keys with every timestamp preserved exactly at millisecond precision
(for timestamps before year 10000, the fixed-width `toISOString` range), and
the `viewSyncStatus` listing is a permutation of the tracked entries ordered
most-recent-first (non-increasing timestamps). -/
theorem watermark_roundtrip_and_ordering :
    (∀ m : RetrieveMap, (∀ kv ∈ m, kv.2 < 253402300800000) →
      getRetrieveMap (saveRetrieveMap m) = m.map fun kv => (kv.1, some kv.2))
    ∧ (∀ m : RetrieveMap,
        (viewSyncStatusEntries m).Perm m
        ∧ (viewSyncStatusEntries m).Pairwise fun a b => b.2 ≤ a.2) := by
  constructor
  · intro m
    induction m with
    | nil => intro hm; rfl
    | cons kv rest ih =>
      intro hm
      have hkv := parseISO_formatISO kv.2 (hm kv (List.mem_cons_self _ _))
      have hrest := ih fun kv2 h2 => hm kv2 (List.mem_cons_of_mem _ h2)
      simp only [saveRetrieveMap, getRetrieveMap, List.map_cons] at hrest ⊢
      rw [hkv, hrest]
  · intro m
    refine ⟨List.mergeSort_perm m _, ?_⟩
    have hs := @List.sorted_mergeSort (String × Nat)
      (fun a b => decide (b.2 ≤ a.2))
      (fun a b c hab hbc => by simp only [decide_eq_true_eq] at *; omega)
      (fun a b => by simp only [Bool.or_eq_true, decide_eq_true_eq]; omega) m
    exact hs.imp fun h => by simpa using h

/-- Witness for C9 at a concrete input: one tracked artifact with a
sub-second timestamp survives the round-trip exactly. -/
theorem watermark_roundtrip_and_ordering_witness :
    getRetrieveMap (saveRetrieveMap [("Invoice", 1700000000123)])
      = [("Invoice", some 1700000000123)] :=
  watermark_roundtrip_and_ordering.1 [("Invoice", 1700000000123)] (by decide)
